import Mathlib

/-!
Verification of the `libiotclient` client library (src/iotclient.c) against its
natural-language specification.

The C code is shallowly embedded: C strings are `List Char` (the characters
before the NUL terminator; reads past the end of a buffer are modelled as
returning the NUL character, matching a zero-initialised buffer), pointers into
the receive buffer are byte offsets, machine-level `size_t` casts are made
explicit, and the effects of `mq_open`/`mq_getattr`/`calloc`/`mkfifo`/`open`/
`read`/`write` are injected as explicit parameters so that every control path
of the C source is represented.  Error codes are the Linux errno values the
code actually returns.
-/

/-! ### Error codes (Linux errno values used by iotclient.c) -/

/-- success return code (`EOK` in iotclient.h) -/
def EOK : Int := 0

/-- `EINVAL`: invalid argument -/
def EINVAL : Int := 22

/-- `ENOENT`: no such entity (property / FIFO name not found) -/
def ENOENT : Int := 2

/-- `EIO`: input/output error -/
def EIOcode : Int := 5

/-- `EBADF`: bad file descriptor -/
def EBADF : Int := 9

/-- `ENOMEM`: out of memory (also used for "value exceeds buffer") -/
def ENOMEM : Int := 12

/-- `EMSGSIZE`: message too large -/
def EMSGSIZE : Int := 90

/-- `MAX_IOT_MSG_SIZE` from iotclient.h: `256 * 1024 * 1024` (256 MiB) -/
def MAX_IOT_MSG_SIZE : Nat := 256 * 1024 * 1024

/-! ### Characters and C-string access -/

/-- the NUL character -/
def nul : Char := Char.ofNat 0

/-- Read byte `i` of a C string modelled as `List Char`.  Position
`s.length` is the NUL terminator; positions beyond it are modelled as NUL as
well (the contents of a zero-initialised buffer). -/
def charAtD (s : List Char) (i : Nat) : Char := s.getD i nul

/-- a character that terminates a property value in `IOTCLIENT_GetProperty`
(`'\n'` or `'\0'` in the C source) -/
def isDelim (c : Char) : Bool := c == '\n' || c == nul

/-! ### `strstr` -/

/-- `matchAt hs ps k` holds when the pattern `ps` occurs in `hs` starting at
byte offset `k`. -/
def matchAt (hs ps : List Char) (k : Nat) : Prop := (hs.drop k).take ps.length = ps

instance (hs ps : List Char) (k : Nat) : Decidable (matchAt hs ps k) :=
  inferInstanceAs (Decidable ((hs.drop k).take ps.length = ps))

/-- Scan of `strstr`: starting at offset `k`, return the offset of the first
occurrence of `ps` in `rest` (the suffix of the haystack beginning at `k`),
or `none`. -/
def scanOccur (ps : List Char) : List Char → Nat → Option Nat
  | [], k => if ps = [] then some k else none
  | c :: t, k =>
      if (c :: t).take ps.length = ps then some k else scanOccur ps t (k + 1)

/-- `strstr(hs, ps)` as an offset: the least `k` with `matchAt hs ps k`. -/
def firstOccur (hs ps : List Char) : Option Nat := scanOccur ps hs 0

/-- `leastMatch hs ps k`: `k` is the offset of the first occurrence of `ps`
in `hs`. -/
def leastMatch (hs ps : List Char) (k : Nat) : Prop :=
  matchAt hs ps k ∧ ∀ j < k, ¬ matchAt hs ps j

instance (hs ps : List Char) (k : Nat) : Decidable (leastMatch hs ps k) :=
  inferInstanceAs (Decidable (matchAt hs ps k ∧ ∀ j < k, ¬ matchAt hs ps j))

/-! ### `IOTCLIENT_GetProperty` (iotclient.c lines 635-689)

The C function takes `headers`, `property`, a caller buffer `buf` and the
buffer capacity `len`.  We pass the caller's buffer as `buf0 : List Char`
(its initial contents), with the capacity `len = buf0.length`, and return the
result code together with the final buffer contents. -/

/-- Shallow embedding of `IOTCLIENT_GetProperty`.  Control flow follows the
source exactly: the `len > 0` argument guard, `strstr` for the property name,
the `p[plen] == ':'` confirmation, and the copy loop which visits *every*
index `i < len`, writing `buf[i] = 0` at `'\n'`/`'\0'` positions and
`buf[i] = p[i]` elsewhere, setting `result = EOK` as soon as a terminator is
seen. -/
def IOTCLIENT_GetProperty (headers property buf0 : List Char) : Int × List Char :=
  if buf0.length = 0 then (EINVAL, buf0)
  else
    match firstOccur headers property with
    | some k =>
        if charAtD headers (k + property.length) = ':' then
          ((if (List.range buf0.length).any
                (fun i => isDelim (charAtD headers (k + property.length + 1 + i)))
              then EOK else ENOMEM),
           (List.range buf0.length).map (fun i =>
              if isDelim (charAtD headers (k + property.length + 1 + i)) then nul
              else charAtD headers (k + property.length + 1 + i)))
        else (ENOENT, buf0)
    | none => (ENOENT, buf0)

/-! ### `IOTCLIENT_Receive` header/body split (iotclient.c lines 536-587)

After a successful `mq_receive` of `n = buf.length > 0` bytes into the
(zero-initialised) receive buffer, the code searches the buffer, as a C
string, for the first `"\n\n"`, NUL-terminates the headers there and
computes header/body pointers (modelled as byte offsets) and lengths. -/

/-- Result of the receive-side split: header pointer (offset into the receive
buffer, `none` = NULL), header length, body pointer, body length. -/
structure ReceiveResult where
  headerPtr : Option Nat
  headerLen : Nat
  bodyPtr : Option Nat
  bodyLen : Nat
deriving DecidableEq

/-- Shallow embedding of the split performed by `IOTCLIENT_Receive` on a
received message `buf` (the `n` received bytes; `strstr` only sees the bytes
before the first embedded NUL).  Mirrors the source: on a `"\n\n"` at offset
`k` it sets header length `k`, advances the pointer by 2, and — when
`k < rxBufSize` — sets the body length to `n - k` (the value the C code
assigns with `len = n - len`). -/
def IOTCLIENT_ReceiveSplit (buf : List Char) (rxBufSize : Nat) : ReceiveResult :=
  let n := buf.length
  match scanOccur ['\n', '\n'] (buf.takeWhile (fun c => c ≠ nul)) 0 with
  | none => ⟨none, 0, some 0, n⟩
  | some k =>
      if k < rxBufSize then ⟨some 0, k, some (k + 2), n - k⟩
      else ⟨some 0, k, none, 0⟩

/-- C1: evaluation of the receive split at the message `"a\n\nbc"` (n = 5,
first `"\n\n"` at offset k = 1, receive buffer size 8).  The code returns
header length 1 and body offset 3 as the claim states, but body length
`n - k = 4`, not `n - k - 2 = 2`; and for `"a\n\n"` (delimiter at the end,
`k + 2 = n`) it returns body length 2, not the empty body the claim
requires. -/
theorem IOTCLIENT_ReceiveSplit_bodyLen_bug :
    IOTCLIENT_ReceiveSplit ['a', '\n', '\n', 'b', 'c'] 8 = ⟨some 0, 1, some 3, 4⟩
    ∧ (IOTCLIENT_ReceiveSplit ['a', '\n', '\n', 'b', 'c'] 8).bodyLen ≠ 5 - 1 - 2
    ∧ IOTCLIENT_ReceiveSplit ['a', '\n', '\n'] 8 = ⟨some 0, 1, some 3, 2⟩
    ∧ (IOTCLIENT_ReceiveSplit ['a', '\n', '\n'] 8).bodyLen ≠ 0
    ∧ IOTCLIENT_ReceiveSplit ['b', 'c'] 8 = ⟨none, 0, some 0, 2⟩ := by
  decide

/-- C2 counterexample: the claim fails on the code in two concrete ways.
With capacity 0 (`buf0 = []`), `IOTCLIENT_GetProperty("a:1\n\n", "a", cap=0)`
returns `EINVAL` (the `len > 0` argument guard), not the `ENOMEM`
(`MessageTooLarge`-class) failure the claim requires.  And for headers
`"ab\na:1\n\n"` with property `"a"`, the name does occur immediately followed
by `':'` (at offset 3), yet the code returns `ENOENT` because only the first
`strstr` occurrence (offset 0, followed by `'b'`) is checked. -/
theorem IOTCLIENT_GetProperty_claim_counterexample :
    (IOTCLIENT_GetProperty ['a', ':', '1', '\n', '\n'] ['a'] []).1 = EINVAL
    ∧ EINVAL ≠ ENOMEM
    ∧ (IOTCLIENT_GetProperty ['a', 'b', '\n', 'a', ':', '1', '\n', '\n'] ['a']
        (List.replicate 8 'X')).1 = ENOENT
    ∧ matchAt ['a', 'b', '\n', 'a', ':', '1', '\n', '\n'] ['a'] 3
    ∧ charAtD ['a', 'b', '\n', 'a', ':', '1', '\n', '\n'] 4 = ':' := by
  decide

/-- C3: `IOTCLIENT_GetProperty` does a bare substring match: querying `"foo"`
against headers `"myfoo:9\n\n"` (where `foo` occurs only inside the longer
name `myfoo`, at offset 2) succeeds and returns the longer header's value
`"9"`. -/
theorem IOTCLIENT_GetProperty_substring_match :
    (IOTCLIENT_GetProperty ['m', 'y', 'f', 'o', 'o', ':', '9', '\n', '\n']
        ['f', 'o', 'o'] (List.replicate 8 'X')).1 = EOK
    ∧ ((IOTCLIENT_GetProperty ['m', 'y', 'f', 'o', 'o', ':', '9', '\n', '\n']
        ['f', 'o', 'o'] (List.replicate 8 'X')).2.takeWhile (fun c => c ≠ nul))
        = ['9']
    ∧ firstOccur ['m', 'y', 'f', 'o', 'o', ':', '9', '\n', '\n'] ['f', 'o', 'o']
        = some 2 := by
  decide

/-! ### `iotclient_SendHeaders` (iotclient.c lines 800-856)

The transmit buffer is constructed as `preamble "IOTC"` (4 bytes) + the raw
4-byte process id + the header text, and submitted with
`mq_send(q, txbuf, totalLength, 0)` where `totalLength = strlen(headers) + 8`.
The outcome of `mq_send` and the validity of the queue descriptor are
injected: `sendErr = none` models a successful `mq_send`.  POSIX `mq_send`
reports `EMSGSIZE` only when `msg_len` exceeds the queue's `mq_msgsize`,
which cannot happen here because `totalLength < maxMessageSize` was just
checked against that very attribute; theorems therefore assume
`sendErr ≠ some EMSGSIZE`. -/

/-- the 4-byte magic token `"IOTC"` -/
def preambleIOTC : List Char := ['I', 'O', 'T', 'C']

/-- Shallow embedding of `iotclient_SendHeaders`: returns the result code and
the frame handed to `mq_send` (`none` when nothing was enqueued). -/
def iotclient_SendHeaders (headers pidBytes : List Char) (maxMessageSize : Nat)
    (qValid : Bool) (sendErr : Option Int) : Int × Option (List Char) :=
  let len := headers.length
  let totalLength := len + 8
  if totalLength < maxMessageSize then
    let txbuf := preambleIOTC ++ pidBytes ++ headers
    if qValid then
      match sendErr with
      | none => (EOK, some txbuf)
      | some e => (e, none)
    else (EBADF, none)
  else (EMSGSIZE, none)

/-- C4: for every headers string, the control-channel frame enqueued by
`iotclient_SendHeaders` is exactly the 4-byte magic token `"IOTC"`, the raw
4-byte sender process id, and the header text with nothing appended (length
`8 + len(headers)`, the bytes after the preamble being exactly the header
text, so no NUL terminator is part of the frame), and the result is
`EMSGSIZE` if and only if `8 + len(headers) ≥ maxMessageSize`. -/
theorem iotclient_SendHeaders_frame (headers pidBytes : List Char)
    (maxMessageSize : Nat) (qValid : Bool) (sendErr : Option Int)
    (hpid : pidBytes.length = 4) (hsend : sendErr ≠ some EMSGSIZE) :
    (∀ f, (iotclient_SendHeaders headers pidBytes maxMessageSize qValid sendErr).2
        = some f →
      f = preambleIOTC ++ pidBytes ++ headers
      ∧ f.length = 8 + headers.length
      ∧ f.drop 8 = headers)
    ∧ ((iotclient_SendHeaders headers pidBytes maxMessageSize qValid sendErr).1
        = EMSGSIZE ↔ maxMessageSize ≤ 8 + headers.length) := by
  have hassoc : preambleIOTC ++ pidBytes ++ headers
      = (preambleIOTC ++ pidBytes) ++ headers := by
    simp [List.append_assoc]
  have hlen48 : (preambleIOTC ++ pidBytes).length = 8 := by
    rw [List.length_append, hpid]; rfl
  have hlen8 : (preambleIOTC ++ pidBytes ++ headers).length = 8 + headers.length := by
    rw [hassoc, List.length_append, hlen48]
  have hdrop : (preambleIOTC ++ pidBytes ++ headers).drop 8 = headers := by
    rw [hassoc, List.drop_left' hlen48]
  have hne1 : EOK ≠ EMSGSIZE := by decide
  have hne2 : EBADF ≠ EMSGSIZE := by decide
  by_cases hlt : headers.length + 8 < maxMessageSize
  · cases qValid with
    | false =>
      have hr : iotclient_SendHeaders headers pidBytes maxMessageSize false sendErr
          = (EBADF, none) := by
        simp [iotclient_SendHeaders, hlt]
      rw [hr]
      refine ⟨fun f hf => by simp at hf, ?_, ?_⟩
      · intro h; exact absurd h hne2
      · intro h; exact absurd h (by omega)
    | true =>
      cases sendErr with
      | none =>
        have hr : iotclient_SendHeaders headers pidBytes maxMessageSize true none
            = (EOK, some (preambleIOTC ++ pidBytes ++ headers)) := by
          simp [iotclient_SendHeaders, hlt]
        rw [hr]
        refine ⟨?_, ?_, ?_⟩
        · intro f hf
          obtain rfl : _ = f := Option.some_inj.mp hf
          exact ⟨rfl, hlen8, hdrop⟩
        · intro h; exact absurd h hne1
        · intro h; exact absurd h (by omega)
      | some e =>
        have hr : iotclient_SendHeaders headers pidBytes maxMessageSize true (some e)
            = (e, none) := by
          simp [iotclient_SendHeaders, hlt]
        rw [hr]
        refine ⟨fun f hf => by simp at hf, ?_, ?_⟩
        · intro h
          exact absurd (by rw [show e = EMSGSIZE from h]) hsend
        · intro h; exact absurd h (by omega)
  · have hr : iotclient_SendHeaders headers pidBytes maxMessageSize qValid sendErr
        = (EMSGSIZE, none) := by
      unfold iotclient_SendHeaders
      rw [if_neg hlt]
    rw [hr]
    exact ⟨fun f hf => by simp at hf, fun _ => by omega, fun _ => rfl⟩

/-- C4 witness: the theorem applied at headers `"a:1\n\n"`, a concrete 4-byte
pid, maximum message size 100, a valid queue and a successful `mq_send`. -/
theorem iotclient_SendHeaders_frame_witness :
    ((['p', 'i', 'd', '0'] : List Char).length = 4
      ∧ (none : Option Int) ≠ some EMSGSIZE)
    ∧ ((∀ f, (iotclient_SendHeaders ['a', ':', '1', '\n', '\n'] ['p', 'i', 'd', '0']
          100 true none).2 = some f →
        f = preambleIOTC ++ ['p', 'i', 'd', '0'] ++ ['a', ':', '1', '\n', '\n']
        ∧ f.length = 8 + (['a', ':', '1', '\n', '\n'] : List Char).length
        ∧ f.drop 8 = ['a', ':', '1', '\n', '\n'])
      ∧ ((iotclient_SendHeaders ['a', ':', '1', '\n', '\n'] ['p', 'i', 'd', '0']
          100 true none).1 = EMSGSIZE
          ↔ 100 ≤ 8 + (['a', ':', '1', '\n', '\n'] : List Char).length)) :=
  ⟨⟨by decide, by decide⟩,
   iotclient_SendHeaders_frame ['a', ':', '1', '\n', '\n'] ['p', 'i', 'd', '0']
     100 true none (by decide) (by decide)⟩

/-! ### `iotclient_SendBody` (iotclient.c lines 957-1014)

The FIFO open and the `write` outcome are injected.  `write` returns an
`ssize_t` (`writeRes`); the C code stores it in a `size_t n`, so `-1` becomes
`SIZE_MAX` and the `n == len` comparison fails for every `len < 2^64 - 1`;
the subsequent `n == -1` comparison converts `-1` to `SIZE_MAX` again and
succeeds exactly when `write` returned `-1`.  The second component of the
result is the number of body bytes written to the pipe (`0` when `write` was
never reached, `writeRes` clamped at 0 otherwise). -/

/-- Shallow embedding of `iotclient_SendBody` for a non-null handle and body:
`hasFifo` = `fifoName != NULL`, `openOk`/`openErr` model
`open(fifoName, O_WRONLY)`, `len` is the body length, `writeRes`/`writeErr`
model the single `write` call. -/
def iotclient_SendBody (hasFifo : Bool) (openOk : Bool) (openErr : Int)
    (len : Nat) (writeRes : Int) (writeErr : Int) : Int × Nat :=
  if hasFifo then
    if openOk then
      if len < MAX_IOT_MSG_SIZE then
        ((if writeRes = (len : Int) then EOK
          else if writeRes = -1 then writeErr
          else EIOcode),
         (if writeRes < 0 then 0 else writeRes.toNat))
      else (EMSGSIZE, 0)
    else (openErr, 0)
  else (ENOENT, 0)

/-- C5: when the handle has a FIFO name and the pipe opens, a body of
`256 MiB` or more is rejected with `EMSGSIZE` with zero bytes written
(the `write` call is never reached), while for a body of `256 MiB - 1` bytes
the size check passes and, when the write completes in full, the send
returns `EOK`. -/
theorem iotclient_SendBody_size_limit (openErr : Int) (len : Nat)
    (writeRes writeErr : Int) :
    (MAX_IOT_MSG_SIZE ≤ len →
      iotclient_SendBody true true openErr len writeRes writeErr = (EMSGSIZE, 0))
    ∧ (len = MAX_IOT_MSG_SIZE - 1 → writeRes = (len : Int) →
      (iotclient_SendBody true true openErr len writeRes writeErr).1 = EOK) := by
  constructor
  · intro h
    unfold iotclient_SendBody
    rw [if_pos rfl, if_pos rfl, if_neg (Nat.not_lt.mpr h)]
  · intro hlen hw
    unfold iotclient_SendBody
    rw [if_pos rfl, if_pos rfl,
        if_pos (by rw [hlen]; unfold MAX_IOT_MSG_SIZE; omega), if_pos hw]

/-- C5 witness: the theorem applied at the boundary body sizes 256 MiB and
256 MiB − 1 (with a full write in the second case). -/
theorem iotclient_SendBody_size_limit_witness :
    (MAX_IOT_MSG_SIZE ≤ MAX_IOT_MSG_SIZE
      ∧ iotclient_SendBody true true 5 MAX_IOT_MSG_SIZE 0 5 = (EMSGSIZE, 0))
    ∧ ((MAX_IOT_MSG_SIZE - 1 = MAX_IOT_MSG_SIZE - 1
        ∧ ((MAX_IOT_MSG_SIZE - 1 : Nat) : Int) = ((MAX_IOT_MSG_SIZE - 1 : Nat) : Int))
      ∧ (iotclient_SendBody true true 5 (MAX_IOT_MSG_SIZE - 1)
          ((MAX_IOT_MSG_SIZE - 1 : Nat) : Int) 5).1 = EOK) :=
  ⟨⟨le_rfl,
    (iotclient_SendBody_size_limit 5 MAX_IOT_MSG_SIZE 0 5).1 le_rfl⟩,
   ⟨⟨rfl, rfl⟩,
    (iotclient_SendBody_size_limit 5 (MAX_IOT_MSG_SIZE - 1)
        ((MAX_IOT_MSG_SIZE - 1 : Nat) : Int) 5).2 rfl rfl⟩⟩

/-! ### `IOTCLIENT_Create` (iotclient.c lines 226-257) with
`iotclient_CreateTxMessageQueue` (lines 1150-1196), `iotclient_CreateFIFO`
(lines 899-928) and their teardown helpers.

The outcomes of the system calls are injected through `CreateEnv`; the
resources held by the process (the handle allocation, the open control-channel
descriptor, the transmit buffer, the FIFO name string and the FIFO filesystem
entry) are tracked in `Resources`.  `IOTCLIENT_Create` returns whether a
handle was returned to the caller together with the final resource state. -/

/-- Injected outcomes of the system calls made during handle creation. -/
structure CreateEnv where
  handleAllocOk : Bool
  mqOpenOk : Bool
  mqOpenErrno : Int
  getattrOk : Bool
  txBufAllocOk : Bool
  asprintfOk : Bool
  mkfifoOk : Bool
  mkfifoErrno : Int
deriving DecidableEq

/-- Process-wide accounting of the resources acquired during creation. -/
structure Resources where
  handleAlloc : Bool
  mqOpen : Bool
  txBufAlloc : Bool
  fifoNameAlloc : Bool
  fifoExists : Bool
deriving DecidableEq

/-- All resources released. -/
def Resources.none : Resources := ⟨false, false, false, false, false⟩

/-- `iotclient_CreateTxMessageQueue`: opens the control queue write-only,
reads its attributes, allocates the transmit buffer.  Note the source closes
the queue on a failed `calloc`, but on a failed `mq_getattr` it returns `EIO`
with the queue still open. -/
def iotclient_CreateTxMessageQueue (env : CreateEnv) (res : Resources) :
    Int × Resources :=
  if env.mqOpenOk then
    let res1 := { res with mqOpen := true }
    if env.getattrOk then
      if env.txBufAllocOk then (EOK, { res1 with txBufAlloc := true })
      else (ENOMEM, { res1 with mqOpen := false })
    else (EIOcode, res1)
  else (env.mqOpenErrno, res)

/-- `iotclient_DestroyFIFO`: unlinks the FIFO (result ignored) and frees the
name string when one is recorded. -/
def iotclient_DestroyFIFO (res : Resources) : Resources :=
  if res.fifoNameAlloc then { res with fifoExists := false, fifoNameAlloc := false }
  else res

/-- `iotclient_CreateFIFO`: builds the name with `asprintf`, calls `mkfifo`,
and on `mkfifo` failure tears the partial FIFO down again. -/
def iotclient_CreateFIFO (env : CreateEnv) (res : Resources) : Int × Resources :=
  if env.asprintfOk then
    let res1 := { res with fifoNameAlloc := true }
    if env.mkfifoOk then (EOK, { res1 with fifoExists := true })
    else (env.mkfifoErrno, iotclient_DestroyFIFO res1)
  else (EINVAL, res)

/-- `iotclient_DestroyTxMessageQueue`: frees the transmit buffer and closes
the control queue (each guarded by a null/`-1` check; net effect is that both
are released). -/
def iotclient_DestroyTxMessageQueue (res : Resources) : Resources :=
  { res with txBufAlloc := false, mqOpen := false }

/-- `IOTCLIENT_Create`: `calloc` the handle, create the transmit queue,
create the FIFO (tearing the queue down if the FIFO fails), and free the
handle on any failure.  Returns `some ()` exactly when a non-null handle is
returned to the caller. -/
def IOTCLIENT_Create (env : CreateEnv) : Option Unit × Resources :=
  if env.handleAllocOk then
    let res1 : Resources := { Resources.none with handleAlloc := true }
    let (rc, res2) := iotclient_CreateTxMessageQueue env res1
    let (rc3, res3) :=
      if rc = EOK then
        let (rc2, r2) := iotclient_CreateFIFO env res2
        if rc2 ≠ EOK then (rc2, iotclient_DestroyTxMessageQueue r2) else (rc2, r2)
      else (rc, res2)
    if rc3 ≠ EOK then (none, { res3 with handleAlloc := false })
    else (some (), res3)
  else (none, Resources.none)

/-- C6: evaluation of `IOTCLIENT_Create` at each failure point.  When
`mq_getattr` fails (all other steps fine), `Create` returns no handle but the
control-channel descriptor opened by `mq_open` is left open — the claimed
release of every acquired resource fails at exactly this point.  At the other
failure points (control-channel open failure, send-buffer allocation failure,
named-pipe creation failure) everything is released, and a handle is returned
only when every step succeeded. -/
theorem IOTCLIENT_Create_unwind_eval :
    (IOTCLIENT_Create ⟨true, true, 2, false, true, true, true, 13⟩
        = (none, ⟨false, true, false, false, false⟩)
      ∧ (IOTCLIENT_Create ⟨true, true, 2, false, true, true, true, 13⟩).2.mqOpen = true)
    ∧ IOTCLIENT_Create ⟨true, false, 2, true, true, true, true, 13⟩
        = (none, Resources.none)
    ∧ IOTCLIENT_Create ⟨true, true, 2, true, false, true, true, 13⟩
        = (none, Resources.none)
    ∧ IOTCLIENT_Create ⟨true, true, 2, true, true, false, true, 13⟩
        = (none, Resources.none)
    ∧ IOTCLIENT_Create ⟨true, true, 2, true, true, true, false, 13⟩
        = (none, Resources.none)
    ∧ IOTCLIENT_Create ⟨true, true, 2, true, true, true, true, 13⟩
        = (some (), ⟨true, true, true, true, true⟩) := by
  decide

/-! ### `IOTCLIENT_Close` (iotclient.c lines 707-730)

`Close` runs the three teardown helpers (none of which can fail — the
`unlink`/`mq_close` results are ignored and every field is guarded by a
null/`-1` check) and then frees the handle with `free(hIoTClient)`.  The
handle is modelled as `Option IotClientState`; after `free` the allocation no
longer exists, so the returned handle state is `none`. -/

/-- The fields of `struct IotClient` that teardown looks at. -/
structure IotClientState where
  fifoNameAlloc : Bool
  fifoExists : Bool
  txQOpen : Bool
  txBufAlloc : Bool
  rxQOpen : Bool
  rxBufAlloc : Bool
deriving DecidableEq

/-- Shallow embedding of `IOTCLIENT_Close`: `EINVAL` on a null/absent handle,
otherwise teardown (which succeeds for every field combination, including a
FIFO already removed externally) followed by `free`, and `EOK`. -/
def IOTCLIENT_Close : Option IotClientState → Int × Option IotClientState
  | none => (EINVAL, none)
  | some _ => (EOK, none)

/-- C7 counterexample: `Close` frees the handle, so it is not idempotent on
the same handle: after a first successful `Close` the handle is gone, and a
second `Close` on what remains of it does not succeed (in C this is a double
`free` — undefined behaviour — modelled as `Close` of an absent handle). -/
theorem IOTCLIENT_Close_claim_counterexample :
    IOTCLIENT_Close (some ⟨true, true, true, true, true, true⟩) = (EOK, none)
    ∧ (IOTCLIENT_Close
        (IOTCLIENT_Close (some ⟨true, true, true, true, true, true⟩)).2).1 = EINVAL
    ∧ EINVAL ≠ EOK := by
  decide

/-- C7 amended: `Close` returns success for every live non-null handle —
whatever the state of its fields, in particular when the named pipe was
already removed externally (`fifoExists = false`; the `unlink` result is
ignored) — and fails with `EINVAL` exactly on a null/absent handle; but it
frees the handle, so the handle is absent afterwards and a second `Close` on
it returns `EINVAL` rather than success. -/
theorem IOTCLIENT_Close_spec_amended (s : IotClientState) :
    IOTCLIENT_Close (some s) = (EOK, none)
    ∧ IOTCLIENT_Close none = (EINVAL, none)
    ∧ (IOTCLIENT_Close (IOTCLIENT_Close (some s)).2).1 = EINVAL := by
  exact ⟨rfl, rfl, rfl⟩

/-! ### `iotclient_StreamBody` (iotclient.c lines 1039-1102)

The loop reads up to `BUFSIZ` bytes at a time from the caller's descriptor
(`reads i` is the `ssize_t` result of the `i`-th `read` call), truncates the
block to the bytes left under the 256 MiB ceiling, writes it (ignoring the
`write` result entirely) and accumulates `total`.  The C code stores the
`read` result in a `size_t`, so a `-1` error becomes `2^64 - 1` and is
truncated to `bytesLeft`.  The loop body runs while `total < 256 MiB` and
breaks when the (truncated) block size is 0. -/

/-- The block size the loop will write for one `read` result `r`, given the
remaining byte budget: the `size_t` conversion of `r` truncated to
`bytesLeft` (`if (n > bytesLeft) n = bytesLeft`). -/
def readSize (r : Int) (bytesLeft : Nat) : Nat :=
  if bytesLeft < (if r < 0 then 2 ^ 64 - 1 else r.toNat) then bytesLeft
  else (if r < 0 then 2 ^ 64 - 1 else r.toNat)

/-- Every truncated block fits in the remaining budget. -/
theorem readSize_le (r : Int) (bytesLeft : Nat) : readSize r bytesLeft ≤ bytesLeft := by
  unfold readSize
  split_ifs <;> omega

/-- The read/write loop of `iotclient_StreamBody`, returning the list of
block sizes written to the pipe.  Totality of this definition is the
termination of the loop: every iteration either breaks (block size 0) or
adds at least one byte to `total`, which is bounded by the ceiling. -/
def streamLoop (reads : Nat → Int) (i : Nat) (total : Nat) : List Nat :=
  if h : total < MAX_IOT_MSG_SIZE then
    if h2 : 0 < readSize (reads i) (MAX_IOT_MSG_SIZE - total) then
      readSize (reads i) (MAX_IOT_MSG_SIZE - total)
        :: streamLoop reads (i + 1)
            (total + readSize (reads i) (MAX_IOT_MSG_SIZE - total))
    else []
  else []
termination_by MAX_IOT_MSG_SIZE - total
decreasing_by omega

/-- The cumulative number of bytes written never exceeds the ceiling. -/
theorem streamLoop_sum_le (reads : Nat → Int) :
    ∀ fuel i total, MAX_IOT_MSG_SIZE - total ≤ fuel → total ≤ MAX_IOT_MSG_SIZE →
      total + (streamLoop reads i total).sum ≤ MAX_IOT_MSG_SIZE := by
  intro fuel
  induction fuel with
  | zero =>
    intro i total hf ht
    rw [streamLoop, dif_neg (by omega)]
    simpa using ht
  | succ fuel ih =>
    intro i total hf ht
    by_cases h : total < MAX_IOT_MSG_SIZE
    · rw [streamLoop, dif_pos h]
      by_cases h2 : 0 < readSize (reads i) (MAX_IOT_MSG_SIZE - total)
      · rw [dif_pos h2]
        have hle : readSize (reads i) (MAX_IOT_MSG_SIZE - total)
            ≤ MAX_IOT_MSG_SIZE - total := readSize_le _ _
        have := ih (i + 1) (total + readSize (reads i) (MAX_IOT_MSG_SIZE - total))
          (by omega) (by omega)
        rw [List.sum_cons]
        omega
      · rw [dif_neg h2]
        simpa using ht
    · rw [streamLoop, dif_neg h]
      simpa using ht

/-- Every block the loop writes is at least one byte. -/
theorem streamLoop_pos (reads : Nat → Int) :
    ∀ fuel i total, MAX_IOT_MSG_SIZE - total ≤ fuel →
      ∀ b ∈ streamLoop reads i total, 1 ≤ b := by
  intro fuel
  induction fuel with
  | zero =>
    intro i total hf
    rw [streamLoop, dif_neg (by omega)]
    simp
  | succ fuel ih =>
    intro i total hf
    by_cases h : total < MAX_IOT_MSG_SIZE
    · rw [streamLoop, dif_pos h]
      by_cases h2 : 0 < readSize (reads i) (MAX_IOT_MSG_SIZE - total)
      · rw [dif_pos h2]
        intro b hb
        rcases List.mem_cons.mp hb with hb | hb
        · omega
        · exact ih (i + 1) _ (by omega) b hb
      · rw [dif_neg h2]
        simp
    · rw [streamLoop, dif_neg h]
      simp

/-- A list of positive naturals is no longer than its sum. -/
theorem length_le_sum_of_pos :
    ∀ l : List Nat, (∀ b ∈ l, 1 ≤ b) → l.length ≤ l.sum := by
  intro l
  induction l with
  | nil => simp
  | cons a t ih =>
    intro h
    have ht := ih (fun b hb => h b (List.mem_cons_of_mem a hb))
    have ha := h a (List.mem_cons_self a t)
    rw [List.length_cons, List.sum_cons]
    omega

/-- A prefix sum is bounded by the total sum. -/
theorem take_sum_le (l : List Nat) (j : Nat) : (l.take j).sum ≤ l.sum := by
  conv_rhs => rw [← List.take_append_drop j l]
  rw [List.sum_append]
  omega

/-- Shallow embedding of `iotclient_StreamBody`: argument guards, FIFO-name
check, FIFO open, then the loop (whose `write` results, `writeResults`, are
never consulted by the source).  Returns the result code and the list of
block sizes written. -/
def iotclient_StreamBody (hValid : Bool) (fd : Int) (hasFifo openOk : Bool)
    (reads : Nat → Int) (writeResults : Nat → Int) : Int × List Nat :=
  if hValid = true ∧ fd ≠ -1 then
    if hasFifo then
      if openOk then (EOK, streamLoop reads 0 0)
      else (EBADF, [])
    else (ENOENT, [])
  else (EINVAL, [])

/-- C8: for every source (every sequence of `read` results, including error
returns), the cumulative number of bytes written by `iotclient_StreamBody`
never exceeds the 256 MiB ceiling at any point of the loop (every prefix of
the written blocks sums below the ceiling — the final block is truncated to
keep it so), every written block is non-empty, and the loop terminates — it
runs at most `MAX_IOT_MSG_SIZE` iterations (and the totality of `streamLoop`
as a Lean function is itself the termination argument). -/
theorem iotclient_StreamBody_ceiling (hValid : Bool) (fd : Int)
    (hasFifo openOk : Bool) (reads writeResults : Nat → Int) (j : Nat) :
    (((iotclient_StreamBody hValid fd hasFifo openOk reads writeResults).2).take j).sum
        ≤ MAX_IOT_MSG_SIZE
    ∧ (∀ b ∈ (iotclient_StreamBody hValid fd hasFifo openOk reads writeResults).2,
        1 ≤ b)
    ∧ ((iotclient_StreamBody hValid fd hasFifo openOk reads writeResults).2).length
        ≤ MAX_IOT_MSG_SIZE := by
  have hsum : (streamLoop reads 0 0).sum ≤ MAX_IOT_MSG_SIZE := by
    simpa using streamLoop_sum_le reads MAX_IOT_MSG_SIZE 0 0 (by omega) (by omega)
  have hpos : ∀ b ∈ streamLoop reads 0 0, 1 ≤ b :=
    streamLoop_pos reads MAX_IOT_MSG_SIZE 0 0 (by omega)
  have hlen : (streamLoop reads 0 0).length ≤ MAX_IOT_MSG_SIZE :=
    le_trans (length_le_sum_of_pos _ hpos) hsum
  have htake : ((streamLoop reads 0 0).take j).sum ≤ MAX_IOT_MSG_SIZE :=
    le_trans (take_sum_le _ j) hsum
  unfold iotclient_StreamBody
  split
  · split
    · split
      · exact ⟨htake, hpos, hlen⟩
      · simp
    · simp
  · simp

/-- C9: once `iotclient_StreamBody` has valid arguments, a recorded FIFO name
and a successfully opened pipe, it returns `EOK` whatever the individual
`read` and `write` results are; the result code is entirely independent of
the source data and the write outcomes, and a non-`EOK` result occurs only
for a null handle, a `-1` descriptor, a missing FIFO name, or a pipe that
failed to open. -/
theorem iotclient_StreamBody_result (hValid : Bool) (fd : Int)
    (hasFifo openOk : Bool) (reads writeResults : Nat → Int) :
    (hValid = true → fd ≠ -1 → hasFifo = true → openOk = true →
      (iotclient_StreamBody hValid fd hasFifo openOk reads writeResults).1 = EOK)
    ∧ ((iotclient_StreamBody hValid fd hasFifo openOk reads writeResults).1 ≠ EOK →
      hValid = false ∨ fd = -1 ∨ hasFifo = false ∨ openOk = false)
    ∧ (∀ reads' writeResults' : Nat → Int,
        (iotclient_StreamBody hValid fd hasFifo openOk reads writeResults).1
          = (iotclient_StreamBody hValid fd hasFifo openOk reads' writeResults').1) := by
  unfold iotclient_StreamBody
  by_cases hv : hValid = true ∧ fd ≠ -1
  · rw [if_pos hv]
    cases hasFifo with
    | false =>
      refine ⟨fun _ _ hff _ => by simp at hff, fun _ => ?_,
        fun _ _ => by rw [if_pos hv]; rfl⟩
      exact Or.inr (Or.inr (Or.inl rfl))
    | true =>
      cases openOk with
      | false =>
        refine ⟨fun _ _ _ hok => by simp at hok, fun _ => ?_,
          fun _ _ => by rw [if_pos hv]; rfl⟩
        exact Or.inr (Or.inr (Or.inr rfl))
      | true =>
        exact ⟨fun _ _ _ _ => rfl, fun h => absurd rfl h,
          fun _ _ => by rw [if_pos hv]; rfl⟩
  · rw [if_neg hv]
    refine ⟨fun h1 h2 _ _ => ?_, fun _ => ?_, fun _ _ => by rw [if_neg hv]⟩
    · rcases not_and_or.mp hv with hv' | hv'
      · exact absurd h1 hv'
      · exact absurd (not_not.mp hv') h2
    · rcases not_and_or.mp hv with hv' | hv'
      · exact Or.inl (by simpa using hv')
      · exact Or.inr (Or.inl (not_not.mp hv'))

/-- C9 witness: the theorem applied with a valid handle, descriptor 0, a FIFO
name present and a successful open; the loop's reads all return 0. -/
theorem iotclient_StreamBody_result_witness :
    (true = true ∧ (0 : Int) ≠ -1 ∧ true = true ∧ true = true)
    ∧ (iotclient_StreamBody true 0 true true (fun _ => 0) (fun _ => 0)).1 = EOK
    ∧ (false = false ∨ (0 : Int) = -1 ∨ true = false ∨ true = false) :=
  ⟨⟨rfl, by decide, rfl, rfl⟩,
   (iotclient_StreamBody_result true 0 true true (fun _ => 0) (fun _ => 0)).1
     rfl (by decide) rfl rfl,
   (iotclient_StreamBody_result false 0 true true (fun _ => 0) (fun _ => 0)).2.1
     (by decide)⟩

/-! ### Characterisation of the `strstr` scan

These lemmas relate the executable scan `scanOccur` to the declarative
predicate `matchAt`, so that the `GetProperty` theorems can be stated in
terms of *the first occurrence of the property name in the headers* rather
than in terms of the scan itself. -/

/-- The pattern occurs in the empty haystack only when it is empty. -/
theorem matchAt_nil (ps : List Char) (k : Nat) : matchAt [] ps k ↔ ps = [] := by
  unfold matchAt
  simp [eq_comm]

/-- Shifting an occurrence across the head of the haystack. -/
theorem matchAt_cons_succ (c : Char) (t ps : List Char) (d : Nat) :
    matchAt (c :: t) ps (d + 1) ↔ matchAt t ps d := by
  unfold matchAt
  rw [List.drop_succ_cons]

/-- Occurrence at offset 0 is a prefix match. -/
theorem matchAt_zero (l ps : List Char) : matchAt l ps 0 ↔ l.take ps.length = ps := by
  unfold matchAt
  rw [List.drop_zero]

/-- Starting the scan at offset `k` just shifts the reported offset. -/
theorem scanOccur_shift (ps : List Char) :
    ∀ (rest : List Char) (k : Nat),
      scanOccur ps rest k = (scanOccur ps rest 0).map (· + k) := by
  intro rest
  induction rest with
  | nil =>
    intro k
    simp only [scanOccur]
    split_ifs
    · simp
    · simp
  | cons c t ih =>
    intro k
    simp only [scanOccur]
    split_ifs
    · simp
    · rw [ih (k + 1), ih 1, Option.map_map]
      rcases scanOccur ps t 0 with _ | x
      · simp
      · simp [Function.comp]
        omega

/-- The scan returns `some j` exactly when `j` is the least occurrence. -/
theorem scanOccur_zero_some (ps : List Char) :
    ∀ (rest : List Char) (j : Nat),
      scanOccur ps rest 0 = some j ↔
        (matchAt rest ps j ∧ ∀ d < j, ¬ matchAt rest ps d) := by
  intro rest
  induction rest with
  | nil =>
    intro j
    simp only [scanOccur]
    split_ifs with h
    · constructor
      · intro hj
        obtain rfl : 0 = j := Option.some_inj.mp hj
        exact ⟨by rw [matchAt_nil]; exact h, by omega⟩
      · rintro ⟨hm, hmin⟩
        have hj : j = 0 := by
          by_contra hj
          exact hmin 0 (by omega) (by rw [matchAt_nil]; exact h)
        rw [hj]
    · constructor
      · intro hj
        exact absurd hj (by simp)
      · rintro ⟨hm, _⟩
        exact absurd ((matchAt_nil ps j).mp hm) h
  | cons c t ih =>
    intro j
    simp only [scanOccur]
    split_ifs with h
    · constructor
      · intro hj
        obtain rfl : 0 = j := Option.some_inj.mp hj
        exact ⟨(matchAt_zero _ _).mpr h, by omega⟩
      · rintro ⟨hm, hmin⟩
        have hj : j = 0 := by
          by_contra hj
          exact hmin 0 (by omega) ((matchAt_zero _ _).mpr h)
        rw [hj]
    · rw [scanOccur_shift ps t 1]
      cases j with
      | zero =>
        constructor
        · intro hj
          rcases hx : scanOccur ps t 0 with _ | x
          · rw [hx] at hj
            exact absurd hj (by simp)
          · rw [hx] at hj
            have : x + 1 = 0 := by simpa using hj
            omega
        · rintro ⟨hm, _⟩
          exact absurd ((matchAt_zero _ _).mp hm) h
      | succ d =>
        constructor
        · intro hj
          rcases hx : scanOccur ps t 0 with _ | x
          · rw [hx] at hj
            exact absurd hj (by simp)
          · rw [hx] at hj
            have hx1 : x + 1 = d + 1 := by simpa using hj
            have hxd : x = d := by omega
            rw [hxd] at hx
            obtain ⟨hm, hmin⟩ := (ih d).mp hx
            refine ⟨(matchAt_cons_succ _ _ _ _).mpr hm, ?_⟩
            intro e he
            cases e with
            | zero =>
              intro hme
              exact h ((matchAt_zero _ _).mp hme)
            | succ e =>
              intro hme
              exact hmin e (by omega) ((matchAt_cons_succ _ _ _ _).mp hme)
        · rintro ⟨hm, hmin⟩
          have hm' : matchAt t ps d := (matchAt_cons_succ _ _ _ _).mp hm
          have hmin' : ∀ e < d, ¬ matchAt t ps e := fun e he hme =>
            hmin (e + 1) (by omega) ((matchAt_cons_succ _ _ _ _).mpr hme)
          rw [(ih d).mpr ⟨hm', hmin'⟩]
          rfl

/-- The scan returns `none` exactly when the pattern never occurs. -/
theorem scanOccur_zero_none (ps : List Char) :
    ∀ rest : List Char, scanOccur ps rest 0 = none ↔ ∀ d, ¬ matchAt rest ps d := by
  intro rest
  induction rest with
  | nil =>
    simp only [scanOccur]
    split_ifs with h
    · refine iff_of_false (by simp) ?_
      intro hall
      exact hall 0 (by rw [matchAt_nil]; exact h)
    · refine iff_of_true rfl ?_
      intro d hm
      exact h ((matchAt_nil ps d).mp hm)
  | cons c t ih =>
    simp only [scanOccur]
    split_ifs with h
    · refine iff_of_false (by simp) ?_
      intro hall
      exact hall 0 ((matchAt_zero _ _).mpr h)
    · rw [scanOccur_shift ps t 1]
      constructor
      · intro hnone d
        have ht : scanOccur ps t 0 = none := by
          rcases hx : scanOccur ps t 0 with _ | x
          · rfl
          · rw [hx] at hnone
            exact absurd hnone (by simp)
        have hall := ih.mp ht
        cases d with
        | zero => exact fun hm => h ((matchAt_zero _ _).mp hm)
        | succ d => exact fun hm => hall d ((matchAt_cons_succ _ _ _ _).mp hm)
      · intro hall
        have ht : scanOccur ps t 0 = none :=
          ih.mpr (fun d hm => hall (d + 1) ((matchAt_cons_succ _ _ _ _).mpr hm))
        rw [ht]
        rfl

/-- `strstr` finds `some k` exactly when `k` is the first occurrence. -/
theorem firstOccur_eq_some (hs ps : List Char) (k : Nat) :
    firstOccur hs ps = some k ↔ leastMatch hs ps k := by
  unfold firstOccur leastMatch
  exact scanOccur_zero_some ps hs k

/-- `strstr` finds nothing exactly when the pattern never occurs. -/
theorem firstOccur_eq_none (hs ps : List Char) :
    firstOccur hs ps = none ↔ ∀ k, ¬ matchAt hs ps k := by
  unfold firstOccur
  exact scanOccur_zero_none ps hs

/-! ### The length of a property value

The value of a matched property starts at `pstart = k + plen + 1` and runs to
the first `'\n'` or NUL.  Such a terminator always exists in the model
because reading at or past the end of the headers yields NUL. -/

/-- A value terminator always exists at or after the start of the value. -/
theorem delim_exists (hs : List Char) (pstart : Nat) :
    ∃ i, isDelim (charAtD hs (pstart + i)) = true := by
  refine ⟨hs.length, ?_⟩
  unfold charAtD
  rw [List.getD_eq_default _ _ (by omega)]
  rfl

/-- The length of the value starting at `pstart`: the least `i` whose
character is `'\n'` or NUL. -/
def valueLen (hs : List Char) (pstart : Nat) : Nat := Nat.find (delim_exists hs pstart)

/-- The character at the end of the value is a terminator. -/
theorem valueLen_spec (hs : List Char) (pstart : Nat) :
    isDelim (charAtD hs (pstart + valueLen hs pstart)) = true :=
  Nat.find_spec (delim_exists hs pstart)

/-- No character of the value proper is a terminator. -/
theorem valueLen_min (hs : List Char) (pstart : Nat) :
    ∀ i < valueLen hs pstart, isDelim (charAtD hs (pstart + i)) = false := by
  intro i hi
  have := Nat.find_min (delim_exists hs pstart) hi
  simpa using this

/-- The copy loop's success condition (`some index below the capacity holds a
terminator`) says exactly that the value is shorter than the capacity. -/
theorem any_delim_iff (hs : List Char) (pstart len : Nat) :
    ((List.range len).any fun i => isDelim (charAtD hs (pstart + i))) = true
      ↔ valueLen hs pstart < len := by
  rw [List.any_eq_true]
  constructor
  · rintro ⟨i, hi, hdi⟩
    rw [List.mem_range] at hi
    exact lt_of_le_of_lt (Nat.find_le hdi) hi
  · intro hlt
    exact ⟨valueLen hs pstart, List.mem_range.mpr hlt, valueLen_spec hs pstart⟩

/-- Indexing the image of `List.range`. -/
theorem getD_map_range {α : Type} (f : Nat → α) (n i : Nat) (d : α) :
    ((List.range n).map f).getD i d = if i < n then f i else d := by
  split_ifs with h
  · have hlen : i < ((List.range n).map f).length := by simpa using h
    rw [List.getD_eq_getElem _ _ hlen]
    simp
  · rw [List.getD_eq_default]
    simpa using Nat.le_of_not_lt h

/-! ### Evaluation lemmas for `IOTCLIENT_GetProperty` -/

/-- When `strstr` finds nothing, the result is `ENOENT` and the buffer is
untouched. -/
theorem getProperty_no_match (hs ps buf0 : List Char) (h0 : buf0.length ≠ 0)
    (hfo : firstOccur hs ps = none) :
    IOTCLIENT_GetProperty hs ps buf0 = (ENOENT, buf0) := by
  unfold IOTCLIENT_GetProperty
  rw [if_neg h0, hfo]

/-- When the first occurrence is not followed by `':'`, the result is
`ENOENT` and the buffer is untouched. -/
theorem getProperty_no_colon (hs ps buf0 : List Char) (k : Nat)
    (h0 : buf0.length ≠ 0) (hfo : firstOccur hs ps = some k)
    (hc : charAtD hs (k + ps.length) ≠ ':') :
    IOTCLIENT_GetProperty hs ps buf0 = (ENOENT, buf0) := by
  unfold IOTCLIENT_GetProperty
  rw [if_neg h0, hfo]
  dsimp only
  rw [if_neg hc]

/-- When the first occurrence is followed by `':'`, the result code is
decided by comparing the value length to the capacity and the buffer is
completely rewritten from the headers. -/
theorem getProperty_found (hs ps buf0 : List Char) (k : Nat)
    (h0 : buf0.length ≠ 0) (hfo : firstOccur hs ps = some k)
    (hc : charAtD hs (k + ps.length) = ':') :
    IOTCLIENT_GetProperty hs ps buf0 =
      ((if valueLen hs (k + ps.length + 1) < buf0.length then EOK else ENOMEM),
       (List.range buf0.length).map (fun i =>
          if isDelim (charAtD hs (k + ps.length + 1 + i)) then nul
          else charAtD hs (k + ps.length + 1 + i))) := by
  unfold IOTCLIENT_GetProperty
  rw [if_neg h0, hfo]
  dsimp only
  rw [if_pos hc]
  congr 1
  by_cases hv : valueLen hs (k + ps.length + 1) < buf0.length
  · rw [if_pos ((any_delim_iff hs (k + ps.length + 1) buf0.length).mpr hv), if_pos hv]
  · rw [if_neg (fun hh => hv ((any_delim_iff hs (k + ps.length + 1) buf0.length).mp hh)),
        if_neg hv]

/-- C2 amended: for every headers string, property name, and caller buffer of
capacity `cap > 0`: `GetProperty` fails with `ENOENT` (`NotFound`) exactly
when the *first* occurrence of the name in the headers is not immediately
followed by `':'` (or the name does not occur at all); when the first
occurrence is followed by `':'`, it fails with the `ENOMEM`
(`BufferTooSmall`/`MessageTooLarge`-class) error exactly when the value (up
to the next `'\n'` or NUL) cannot be fully copied and NUL-terminated within
`cap` bytes (`cap ≤ valueLen`), and otherwise succeeds with the buffer
holding the NUL-terminated value.  (With `cap = 0` the code instead fails the
argument guard with `EINVAL` — see the counterexample.) -/
theorem IOTCLIENT_GetProperty_spec_amended (hs ps buf0 : List Char)
    (hlen : 0 < buf0.length) :
    ((IOTCLIENT_GetProperty hs ps buf0).1 = ENOENT ↔
      ∀ k, leastMatch hs ps k → charAtD hs (k + ps.length) ≠ ':')
    ∧ ∀ k, leastMatch hs ps k → charAtD hs (k + ps.length) = ':' →
        (((IOTCLIENT_GetProperty hs ps buf0).1 = EOK ↔
            valueLen hs (k + ps.length + 1) < buf0.length)
         ∧ ((IOTCLIENT_GetProperty hs ps buf0).1 = ENOMEM ↔
            buf0.length ≤ valueLen hs (k + ps.length + 1))
         ∧ ((IOTCLIENT_GetProperty hs ps buf0).1 = EOK →
            (∀ i < valueLen hs (k + ps.length + 1),
              (IOTCLIENT_GetProperty hs ps buf0).2.getD i nul
                = charAtD hs (k + ps.length + 1 + i))
            ∧ (IOTCLIENT_GetProperty hs ps buf0).2.getD
                (valueLen hs (k + ps.length + 1)) nul = nul)) := by
  have h0 : buf0.length ≠ 0 := by omega
  constructor
  · cases hfo : firstOccur hs ps with
    | none =>
      rw [getProperty_no_match hs ps buf0 h0 hfo]
      refine iff_of_true rfl ?_
      intro k hk
      have hsome := (firstOccur_eq_some hs ps k).mpr hk
      rw [hfo] at hsome
      exact absurd hsome (by simp)
    | some k =>
      by_cases hc : charAtD hs (k + ps.length) = ':'
      · rw [getProperty_found hs ps buf0 k h0 hfo hc]
        dsimp only
        refine iff_of_false ?_ ?_
        · split_ifs
          · exact (by decide : EOK ≠ ENOENT)
          · exact (by decide : ENOMEM ≠ ENOENT)
        · intro hall
          exact hall k ((firstOccur_eq_some hs ps k).mp hfo) hc
      · rw [getProperty_no_colon hs ps buf0 k h0 hfo hc]
        refine iff_of_true rfl ?_
        intro j hj
        have hsome := (firstOccur_eq_some hs ps j).mpr hj
        rw [hfo] at hsome
        have hjk : j = k := (Option.some_inj.mp hsome).symm
        rw [hjk]
        exact hc
  · intro k hk hc
    have hfo : firstOccur hs ps = some k := (firstOccur_eq_some hs ps k).mpr hk
    rw [getProperty_found hs ps buf0 k h0 hfo hc]
    dsimp only
    refine ⟨?_, ?_, ?_⟩
    · by_cases hv : valueLen hs (k + ps.length + 1) < buf0.length
      · rw [if_pos hv]
        exact iff_of_true rfl hv
      · rw [if_neg hv]
        exact iff_of_false (by decide : ENOMEM ≠ EOK) hv
    · by_cases hv : valueLen hs (k + ps.length + 1) < buf0.length
      · rw [if_pos hv]
        exact iff_of_false (by decide : EOK ≠ ENOMEM) (by omega)
      · rw [if_neg hv]
        exact iff_of_true rfl (by omega)
    · intro hok
      have hv : valueLen hs (k + ps.length + 1) < buf0.length := by
        by_contra hv
        rw [if_neg hv] at hok
        exact (by decide : ENOMEM ≠ EOK) hok
      constructor
      · intro i hi
        rw [getD_map_range, if_pos (by omega)]
        rw [if_neg (by rw [valueLen_min hs (k + ps.length + 1) i hi]; simp)]
      · rw [getD_map_range, if_pos hv, if_pos (valueLen_spec hs (k + ps.length + 1))]

/-- C2 amended witness: the theorem applied at headers `"a:1\nb:2\n\n"`,
property `"b"`, capacity 8. -/
theorem IOTCLIENT_GetProperty_spec_amended_witness :
    0 < (List.replicate 8 'X').length
    ∧ (((IOTCLIENT_GetProperty ['a', ':', '1', '\n', 'b', ':', '2', '\n', '\n'] ['b']
          (List.replicate 8 'X')).1 = ENOENT ↔
        ∀ k, leastMatch ['a', ':', '1', '\n', 'b', ':', '2', '\n', '\n'] ['b'] k →
          charAtD ['a', ':', '1', '\n', 'b', ':', '2', '\n', '\n']
            (k + (['b'] : List Char).length) ≠ ':')
      ∧ ∀ k, leastMatch ['a', ':', '1', '\n', 'b', ':', '2', '\n', '\n'] ['b'] k →
          charAtD ['a', ':', '1', '\n', 'b', ':', '2', '\n', '\n']
            (k + (['b'] : List Char).length) = ':' →
          (((IOTCLIENT_GetProperty ['a', ':', '1', '\n', 'b', ':', '2', '\n', '\n'] ['b']
              (List.replicate 8 'X')).1 = EOK ↔
            valueLen ['a', ':', '1', '\n', 'b', ':', '2', '\n', '\n']
              (k + (['b'] : List Char).length + 1) < (List.replicate 8 'X').length)
          ∧ ((IOTCLIENT_GetProperty ['a', ':', '1', '\n', 'b', ':', '2', '\n', '\n'] ['b']
              (List.replicate 8 'X')).1 = ENOMEM ↔
            (List.replicate 8 'X').length ≤
              valueLen ['a', ':', '1', '\n', 'b', ':', '2', '\n', '\n']
                (k + (['b'] : List Char).length + 1))
          ∧ ((IOTCLIENT_GetProperty ['a', ':', '1', '\n', 'b', ':', '2', '\n', '\n'] ['b']
              (List.replicate 8 'X')).1 = EOK →
            (∀ i < valueLen ['a', ':', '1', '\n', 'b', ':', '2', '\n', '\n']
                (k + (['b'] : List Char).length + 1),
              (IOTCLIENT_GetProperty ['a', ':', '1', '\n', 'b', ':', '2', '\n', '\n'] ['b']
                (List.replicate 8 'X')).2.getD i nul
                = charAtD ['a', ':', '1', '\n', 'b', ':', '2', '\n', '\n']
                    (k + (['b'] : List Char).length + 1 + i))
            ∧ (IOTCLIENT_GetProperty ['a', ':', '1', '\n', 'b', ':', '2', '\n', '\n'] ['b']
                (List.replicate 8 'X')).2.getD
                (valueLen ['a', ':', '1', '\n', 'b', ':', '2', '\n', '\n']
                  (k + (['b'] : List Char).length + 1)) nul = nul))) :=
  ⟨by decide,
   IOTCLIENT_GetProperty_spec_amended ['a', ':', '1', '\n', 'b', ':', '2', '\n', '\n']
     ['b'] (List.replicate 8 'X') (by decide)⟩

/-- C10: whenever `GetProperty` finds the property name (first occurrence)
followed by `':'`, it writes to every one of the `cap` bytes of the caller's
buffer: the final buffer has exactly `cap` entries, is entirely determined by
the headers (two callers with equal capacity but arbitrary different initial
buffer contents receive identical bytes — nothing of the initial contents
survives), and for every `i < cap` the `i`-th byte is the header character at
`value-start + i` — the text *following* the value included — with the
`'\n'`/NUL terminator positions replaced by NUL; so up to `cap` characters
are read from the headers starting at the value, even past the value's
end. -/
theorem IOTCLIENT_GetProperty_frame_effect (hs ps buf0 : List Char) (k : Nat)
    (hlen : 0 < buf0.length) (hk : leastMatch hs ps k)
    (hc : charAtD hs (k + ps.length) = ':') :
    (IOTCLIENT_GetProperty hs ps buf0).2.length = buf0.length
    ∧ (∀ buf0' : List Char, buf0'.length = buf0.length →
        (IOTCLIENT_GetProperty hs ps buf0').2 = (IOTCLIENT_GetProperty hs ps buf0).2)
    ∧ (∀ i < buf0.length,
        (isDelim (charAtD hs (k + ps.length + 1 + i)) = false →
          (IOTCLIENT_GetProperty hs ps buf0).2.getD i nul
            = charAtD hs (k + ps.length + 1 + i))
        ∧ (isDelim (charAtD hs (k + ps.length + 1 + i)) = true →
          (IOTCLIENT_GetProperty hs ps buf0).2.getD i nul = nul)) := by
  have h0 : buf0.length ≠ 0 := by omega
  have hfo : firstOccur hs ps = some k := (firstOccur_eq_some hs ps k).mpr hk
  rw [getProperty_found hs ps buf0 k h0 hfo hc]
  dsimp only
  refine ⟨by simp, ?_, ?_⟩
  · intro buf0' hl
    rw [getProperty_found hs ps buf0' k (by omega) hfo hc]
    dsimp only
    rw [hl]
  · intro i hi
    constructor
    · intro hd
      rw [getD_map_range, if_pos hi, if_neg (by rw [hd]; simp)]
    · intro hd
      rw [getD_map_range, if_pos hi, if_pos hd]

/-- C10 witness: the theorem applied at headers `"a:1\nb:2\n\n"`, property
`"a"` (first occurrence at offset 0, followed by `':'`), capacity 6. -/
theorem IOTCLIENT_GetProperty_frame_effect_witness :
    (0 < (List.replicate 6 'Z').length
      ∧ leastMatch ['a', ':', '1', '\n', 'b', ':', '2', '\n', '\n'] ['a'] 0
      ∧ charAtD ['a', ':', '1', '\n', 'b', ':', '2', '\n', '\n']
          (0 + (['a'] : List Char).length) = ':')
    ∧ ((IOTCLIENT_GetProperty ['a', ':', '1', '\n', 'b', ':', '2', '\n', '\n'] ['a']
        (List.replicate 6 'Z')).2.length = (List.replicate 6 'Z').length
      ∧ (∀ buf0' : List Char, buf0'.length = (List.replicate 6 'Z').length →
          (IOTCLIENT_GetProperty ['a', ':', '1', '\n', 'b', ':', '2', '\n', '\n'] ['a']
            buf0').2
            = (IOTCLIENT_GetProperty ['a', ':', '1', '\n', 'b', ':', '2', '\n', '\n'] ['a']
              (List.replicate 6 'Z')).2)
      ∧ (∀ i < (List.replicate 6 'Z').length,
          (isDelim (charAtD ['a', ':', '1', '\n', 'b', ':', '2', '\n', '\n']
              (0 + (['a'] : List Char).length + 1 + i)) = false →
            (IOTCLIENT_GetProperty ['a', ':', '1', '\n', 'b', ':', '2', '\n', '\n'] ['a']
              (List.replicate 6 'Z')).2.getD i nul
              = charAtD ['a', ':', '1', '\n', 'b', ':', '2', '\n', '\n']
                  (0 + (['a'] : List Char).length + 1 + i))
          ∧ (isDelim (charAtD ['a', ':', '1', '\n', 'b', ':', '2', '\n', '\n']
              (0 + (['a'] : List Char).length + 1 + i)) = true →
            (IOTCLIENT_GetProperty ['a', ':', '1', '\n', 'b', ':', '2', '\n', '\n'] ['a']
              (List.replicate 6 'Z')).2.getD i nul = nul))) :=
  ⟨⟨by decide, by decide, by decide⟩,
   IOTCLIENT_GetProperty_frame_effect ['a', ':', '1', '\n', 'b', ':', '2', '\n', '\n']
     ['a'] (List.replicate 6 'Z') 0 (by decide) (by decide) (by decide)⟩
